import Mathlib

/-!
# Verification of the teacher_printer page-assignment and PDF-reassembly pipeline

Shallow embedding of the core pure logic of the repository:

* `modules/batch_manager.py` — `create_batches`, `get_batch_images`,
  `get_batch_selection_status`
* `modules/page_builder.py`  — `build_output_pdf` (pure skeleton),
  `group_images_by_page`, `get_layout`, `create_page_with_images`
* `modules/pdf_processor.py` — `convert_pdf_to_images` (file writes modelled
  as a list of file names, the rasterizer as an oracle)
* `modules/job_manager.py`   — the progress computation of `get_job_info`
* `app.py`                   — `get_current_selections` (the merge of the
  persisted selection ledger with live editor state)

Machine reals are modelled by `ℚ` (the layout arithmetic consists of ring
operations and comparisons only); Python `int` by `Int`; Python dicts by
association lists in insertion order, with dict assignment modelled by
`dictSet` (update in place when present, append when absent).
-/

namespace TeacherPrinter

/-- Model of the Python 03d format used for image keys and file names:
zero-pad the decimal representation to at least three digits (for
`i ≥ 1000` the plain decimal representation is produced, as in Python). -/
def fmt3 (i : Nat) : String :=
  if i < 10 then "00" ++ toString i
  else if i < 100 then "0" ++ toString i
  else toString i

/-- Python split on the underscore character, on the character list of
the key: empty fields are kept, exactly as the Python string split
produces them. -/
def splitOnUnderscore : List Char → List (List Char)
  | [] => [[]]
  | c :: rest =>
    match splitOnUnderscore rest with
    | [] => [[c]]
    | g :: gs => if c = '_' then [] :: g :: gs else (c :: g) :: gs

/-- Python integer parsing restricted to an optional sign followed by
decimal digits (the shape every image key produced by this program has);
`none` models the `ValueError` raised on any other input. -/
def parsePyInt (t : List Char) : Option Int :=
  let core (u : List Char) : Option Nat :=
    if u ≠ [] ∧ u.all Char.isDigit then
      some (u.foldl (fun acc c => acc * 10 + (c.toNat - 48)) 0)
    else none
  match t with
  | '-' :: rest => (core rest).map (fun n => -(n : Int))
  | '+' :: rest => (core rest).map (fun n => (n : Int))
  | l => (core l).map (fun n => (n : Int))

/-- Numeric image index of a key, as computed in `sort_img_keys` of
`app.py` and in `group_images_by_page` of `page_builder.py`: split the
key on the underscore character, take element 1, parse it as an integer.
`none` models the `IndexError` or `ValueError` that triggers the lexical
fallback sort. -/
def imgIdx (s : String) : Option Int :=
  match (splitOnUnderscore s.data).get? 1 with
  | some t => parsePyInt t
  | none => none

/-- Stable insertion used by `sortStableBy`: `x` goes in front of the first
element it compares `le` to, so elements with equal keys keep their
original relative order (the Python builtin sort is stable). -/
def sInsert (le : α → α → Bool) (x : α) : List α → List α
  | [] => [x]
  | y :: ys => if le x y then x :: y :: ys else y :: sInsert le x ys

/-- Stable sort by a boolean comparison, modelling the stable Python
builtin sort. -/
def sortStableBy (le : α → α → Bool) : List α → List α
  | [] => []
  | x :: xs => sInsert le x (sortStableBy le xs)

/-- Model of `sort_img_keys` in `app.py`: sort by the parsed numeric image
index; if any key fails to parse, the whole sort falls back to plain
lexical sorting of the strings. -/
def sort_img_keys (keys : List String) : List String :=
  if keys.all (fun k => (imgIdx k).isSome) then
    sortStableBy (fun a b => (imgIdx a).getD 0 ≤ (imgIdx b).getD 0) keys
  else
    sortStableBy (fun a b => !decide (b < a)) keys

/-! ## Batcher (`modules/batch_manager.py`) -/

/-- The loop `for start in range(0, total_images, batch_size)` of
`create_batches`, emitting `(start, min(start + batch_size, total_images))`
at each step. -/
def batchesFrom (start total batchSize : Nat) : List (Nat × Nat) :=
  if h : start < total ∧ 0 < batchSize then
    (start, min (start + batchSize) total) ::
      batchesFrom (start + batchSize) total batchSize
  else []
termination_by total - start
decreasing_by
  exact Nat.sub_lt_sub_left h.1 (Nat.lt_add_of_pos_right h.2)

/-- Model of `create_batches` in `modules/batch_manager.py`. -/
def create_batches (total_images batch_size : Nat) : List (Nat × Nat) :=
  batchesFrom 0 total_images batch_size

/-! ## Page Layout Engine (`modules/page_builder.py`) -/

/-- Model of `get_layout` in `modules/page_builder.py`. -/
def get_layout (image_count : Nat) : Nat × Nat :=
  if image_count = 1 then (1, 1)
  else if image_count = 2 then (2, 1)
  else if image_count ≤ 4 then (2, 2)
  else if image_count ≤ 6 then (3, 2)
  else (3, 3)

/-! ## Selection Ledger merge (`get_current_selections` in `app.py`) -/

/-- Live editor (widget) state visible to `get_current_selections`: `excl`
holds the exclude-checkbox entries and `page` the page-number-input
entries of the session state, both keyed by the image key and listed in
dict insertion order.  (Session keys carrying no image key, such as the
defensively filtered `page_num_` prefix, are omitted.) -/
structure EditorState where
  excl : List (String × Bool)
  page : List (String × Int)

/-- Reading the exclude checkbox for image key `k`, defaulting to false
when the widget is absent from the session state. -/
def EditorState.getExcl (es : EditorState) (k : String) : Bool :=
  ((es.excl.find? (·.1 == k)).map (·.2)).getD false

/-- Reading the page-number widget for image key `k`; `none` when the
widget is absent from the session state. -/
def EditorState.getPage? (es : EditorState) (k : String) : Option Int :=
  (es.page.find? (·.1 == k)).map (·.2)

/-- Python dict assignment on an insertion-ordered association list:
overwrite in place when the key is present, append otherwise. -/
def dictSet (d : List (String × Int)) (k : String) (v : Int) :
    List (String × Int) :=
  if d.any (·.1 == k) then
    d.map (fun kv => if kv.1 == k then (k, v) else kv)
  else d ++ [(k, v)]

/-- Python membership test of a key in a dict. -/
def dictMem (d : List (String × Int)) (k : String) : Bool :=
  d.any (·.1 == k)

/-- Model of `get_current_selections` in `app.py`: merge the persisted
selections with the live widget state, maintaining order.  Step numbers
match the comments in the source. -/
def get_current_selections (existing_selections : List (String × Int))
    (es : EditorState) : List (String × Int) :=
  -- 1) start with what is already saved, current widget states overriding
  let merged := existing_selections.foldl
    (fun m kv =>
      if es.getExcl kv.1 then dictSet m kv.1 0
      else dictSet m kv.1 ((es.getPage? kv.1).getD kv.2)) []
  -- 2) collect new images seen only as page widgets in the current UI state
  let page_keys := (es.page.map (·.1)).filter (fun k => !dictMem merged k)
  -- 3) collect images that only have a ticked exclude checkbox (no page widget)
  let exclude_only_keys :=
    ((es.excl.filter (·.2)).map (·.1)).filter
      (fun k => !dictMem merged k && !dictMem es.page k)
  -- 4) add page-keyed images (respect exclude if checked)
  let merged := (sort_img_keys page_keys).foldl
    (fun m k =>
      if es.getExcl k then dictSet m k 0
      else dictSet m k ((es.getPage? k).getD 1)) merged
  -- 5) add exclude-only images as excluded
  (sort_img_keys exclude_only_keys).foldl (fun m k => dictSet m k 0) merged

/-- Declarative merge following the wording of the claim: every persisted
key is overridden by the live editor value when one exists (exclude flag
forcing 0), and ALL keys present only in the editor state are appended
after the persisted keys as a single group, sorted ascending by numeric
image index, excluded keys mapping to 0, page-keyed keys to their entered
number (default 1). -/
def mergeClaimed (persisted : List (String × Int)) (es : EditorState) :
    List (String × Int) :=
  let base := persisted.map (fun kv =>
    (kv.1, if es.getExcl kv.1 then 0 else (es.getPage? kv.1).getD kv.2))
  let pk := persisted.map (·.1)
  let newKeys :=
    ((es.page.map (·.1)) ++ (es.excl.filter (·.2)).map (·.1)).dedup.filter
      (fun k => !pk.contains k)
  base ++ (sort_img_keys newKeys).map (fun k =>
    (k, if es.getExcl k then 0 else (es.getPage? k).getD 1))

/-- Declarative merge following the amended wording: like `mergeClaimed`,
but the new keys are appended in two groups, first the keys having a page
widget (sorted by numeric index, lexical fallback), then the keys having
only a ticked exclude checkbox (sorted likewise, each with value 0). -/
def mergeAmended (persisted : List (String × Int)) (es : EditorState) :
    List (String × Int) :=
  let base := persisted.map (fun kv =>
    (kv.1, if es.getExcl kv.1 then 0 else (es.getPage? kv.1).getD kv.2))
  let pk := persisted.map (·.1)
  let newPage := (es.page.map (·.1)).filter (fun k => !pk.contains k)
  let newExcl := ((es.excl.filter (·.2)).map (·.1)).filter
    (fun k => !pk.contains k && !(es.page.map (·.1)).contains k)
  base
    ++ (sort_img_keys newPage).map (fun k =>
        (k, if es.getExcl k then 0 else (es.getPage? k).getD 1))
    ++ (sort_img_keys newExcl).map (fun k => (k, (0 : Int)))

/-- Editor state whose live values equal a persisted mapping exactly: the
exclude checkbox of every key is ticked exactly when its value is 0, and
every key with a nonzero value has a page widget holding that value. -/
def editorStateOf (m : List (String × Int)) : EditorState :=
  ⟨m.map (fun kv => (kv.1, kv.2 == 0)), m.filter (fun kv => !(kv.2 == 0))⟩

/-! ## PDF Assembler (`modules/page_builder.py`) -/

/-- Appending an image name to the group of page `p` in the
insertion-ordered pages dict of `group_images_by_page`. -/
def groupInsert (d : List (Int × List String)) (p : Int) (img : String) :
    List (Int × List String) :=
  if d.any (·.1 == p) then
    d.map (fun kv => if kv.1 == p then (kv.1, kv.2 ++ [img]) else kv)
  else d ++ [(p, [img])]

/-- Model of `group_images_by_page` in `modules/page_builder.py`: group
image names by target page, skipping page 0, then sort each group by
numeric image index (lexical fallback). -/
def group_images_by_page (selections : List (String × Int)) :
    List (Int × List String) :=
  let pages := selections.foldl
    (fun d kv => if kv.2 == 0 then d else groupInsert d kv.2 kv.1) []
  pages.map (fun kv => (kv.1, sort_img_keys kv.2))

/-- Durable per-job state that `build_output_pdf` can observe or change:
whether the output PDF exists, plus the other job artifacts, which it
never writes. -/
structure JobFs where
  outputExists : Bool
  imageFiles : List String
  thumbFiles : List String
  selectionsFile : List (String × Int)
deriving DecidableEq

/-- Failure message of the nothing-to-output branch of
`build_output_pdf`. -/
def nothingToOutputMsg : String := "No images to include in PDF (all excluded?)"

/-- Model of `build_output_pdf` in `modules/page_builder.py` (drawing
itself is covered by `create_page_with_images` below; file contents are
not modelled).  The function first deletes any pre-existing output PDF,
then groups the selections by page; an empty grouping is the distinct
nothing-to-output failure, otherwise a page is rendered per group and the
output file is written by the final canvas save. -/
def build_output_pdf (selections : List (String × Int)) (fs : JobFs) :
    (Bool × String) × JobFs :=
  -- delete existing PDF to ensure fresh generation
  let fs1 : JobFs := { fs with outputExists := false }
  let pages := group_images_by_page selections
  if pages.isEmpty then
    ((false, nothingToOutputMsg), fs1)
  else
    ((true, "PDF created with " ++ toString pages.length ++ " pages"),
      { fs1 with outputExists := true })

/-! ## Page layout arithmetic (`create_page_with_images`)

Machine floats are modelled by `ℚ`: the computation consists of field
operations and comparisons only. -/

/-- One millimetre in points, as in reportlab: 72 divided by 25.4, that
is 360/127. -/
def mmQ : ℚ := 360 / 127

/-- A4 width in points (210 mm). -/
def a4Width : ℚ := 210 * mmQ

/-- A4 height in points (297 mm). -/
def a4Height : ℚ := 297 * mmQ

/-- Rectangle passed to the canvas drawImage call: lower-left corner and
size, in points, page origin at the bottom left. -/
structure Rect where
  x : ℚ
  y : ℚ
  w : ℚ
  h : ℚ
deriving DecidableEq

/-- Placement of one image of pixel size `imgW × imgH` into the cell with
lower-left corner `(x, y)` and size `cellW × cellH`: the body of the
placement loop of `create_page_with_images` (aspect-preserving
scale-to-fit with a 2 mm inset, centered in the cell). -/
def placeInCell (imgW imgH cellW cellH x y : ℚ) : Rect :=
  let aspect := imgW / imgH
  if aspect > cellW / cellH then
    -- width-constrained
    let draw_width := cellW - 2 * mmQ
    let draw_height := draw_width / aspect
    ⟨x + (cellW - draw_width) / 2, y + (cellH - draw_height) / 2,
      draw_width, draw_height⟩
  else
    -- height-constrained
    let draw_height := cellH - 2 * mmQ
    let draw_width := draw_height * aspect
    ⟨x + (cellW - draw_width) / 2, y + (cellH - draw_height) / 2,
      draw_width, draw_height⟩

/-- Model of `create_page_with_images` in `modules/page_builder.py`,
applied to the pixel dimensions of the (existing) images of one page
group: returns the rectangle drawn for each image, in order.  Image `idx`
goes to grid cell `(idx / cols, idx % cols)`, row 0 topmost, the vertical
cell position computed from the bottom-left page origin.  In the 2-image
special case each image is first rotated by 90 degrees with expansion,
which swaps its pixel dimensions. -/
def create_page_with_images (imageDims : List (ℚ × ℚ))
    (layout : Nat × Nat) (a4_width a4_height : ℚ) : List Rect :=
  let rows := layout.1
  let cols := layout.2
  let margin := 10 * mmQ
  let available_width := a4_width - 2 * margin
  let available_height := a4_height - 2 * margin
  let cell_width := available_width / cols
  let cell_height := available_height / rows
  (List.range imageDims.length).map (fun idx =>
    let row := idx / cols
    let col := idx % cols
    let x := margin + (col : ℚ) * cell_width
    let y := a4_height - margin - ((row : ℚ) + 1) * cell_height
    let d := imageDims.getD idx (1, 1)
    let d := if imageDims.length = 2 then (d.2, d.1) else d
    placeInCell d.1 d.2 cell_width cell_height x y)

/-! ## Image Store (`modules/pdf_processor.py`) -/

/-- Result of `convert_pdf_to_images` together with the files the call
wrote into the images and thumbnails folders of the job (in write
order). -/
structure ConvResult where
  ok : Bool
  message : String
  count : Nat
  dpiUsed : Option Nat
  files : List String
deriving DecidableEq

/-- File names written for source page `p`: the full-resolution raster and
its thumbnail, both JPEG. -/
def pageFiles (p : Nat) : List String :=
  ["img_" ++ fmt3 p ++ ".jpg", "thumb_" ++ fmt3 p ++ ".jpg"]

/-- Page loop of `convert_pdf_to_images`: each listed page is rasterized
through the oracle `raster` (modelling the external convert and save
calls); an `error` models an exception, which aborts the loop before
anything is written for that page.  Returns the files written, the
exception message if any, and the final running image count. -/
def convertPages (raster : Nat → Except String Unit) :
    List Nat → List String × Option String × Nat
  | [] => ([], none, 0)
  | p :: ps =>
    match raster p with
    | .error e => ([], some e, 0)
    | .ok _ =>
      let r := convertPages raster ps
      (pageFiles p ++ r.1, r.2.1, r.2.2 + 1)

/-- Model of `convert_pdf_to_images` in `modules/pdf_processor.py`, with
rasterization abstracted as `raster`, the page count of the source PDF
given as `total_pages`, and `dpi` the resolved resolution.  Pages 1 to
`total_pages` are processed strictly in order; any exception is caught
and turned into a failure tuple with image count 0 and no DPI, while the
files already written stay in place. -/
def convert_pdf_to_images (raster : Nat → Except String Unit)
    (total_pages dpi : Nat) : ConvResult :=
  match convertPages raster ((List.range total_pages).map (· + 1)) with
  | (fs, none, cnt) =>
    ⟨true,
      "Converted " ++ toString cnt ++ " pages at " ++ toString dpi ++ " DPI",
      cnt, some dpi, fs⟩
  | (fs, some e, _) =>
    ⟨false, "Error converting PDF: " ++ e, 0, none, fs⟩

/-- Result record of `get_batch_images` in `modules/batch_manager.py`. -/
structure BatchImages where
  images : List String
  thumbnails : List String
  image_numbers : List Nat
deriving DecidableEq

/-- Model of `get_batch_images` in `modules/batch_manager.py`; `existing`
is the list of file names present in the images and thumbnails folders of
the job (the constant folder prefixes of the paths are elided).  For each
index from `batch_start + 1` to `batch_end`, PNG file names are formed
and both paths are collected exactly when the thumbnail file exists. -/
def get_batch_images (existing : List String)
    (batch_start batch_end : Nat) : BatchImages :=
  let idxs := (List.range (batch_end - batch_start)).map (· + (batch_start + 1))
  let hits := idxs.filter
    (fun i => existing.contains ("thumb_" ++ fmt3 i ++ ".png"))
  { images := hits.map (fun i => "img_" ++ fmt3 i ++ ".png")
    thumbnails := hits.map (fun i => "thumb_" ++ fmt3 i ++ ".png")
    image_numbers := idxs }

/-! ## Progress statistics (`batch_manager.py`, `job_manager.py`) -/

/-- Python round to the nearest integer: half-to-even banker rounding, on
exact rationals. -/
def pyRound (q : ℚ) : ℤ :=
  let f := ⌊q⌋
  let frac := q - f
  if frac < 1 / 2 then f
  else if 1 / 2 < frac then f + 1
  else if f % 2 = 0 then f else f + 1

/-- Python round to one decimal place, on exact rationals. -/
def pyRound1 (q : ℚ) : ℚ := (pyRound (q * 10) : ℚ) / 10

/-- Status record returned by `get_batch_selection_status`. -/
structure BatchStatus where
  batch_num : Nat
  total_batches : Nat
  batch_complete : Nat
  batch_total : Int
  batch_percent : ℤ
  overall_complete : Nat
  overall_total : Nat
  overall_percent : ℤ
deriving DecidableEq

/-- Model of `get_batch_selection_status` in `modules/batch_manager.py`;
`total_images` stands for the image count on disk and `selections` for
the loaded ledger. -/
def get_batch_selection_status (total_images : Nat)
    (selections : List (String × Int))
    (batch_num total_batches batch_size : Nat) : BatchStatus :=
  let batch_start := batch_num * batch_size
  let batch_end := min (batch_start + batch_size) total_images
  let idxs := (List.range (batch_end - batch_start)).map (· + (batch_start + 1))
  let batch_complete :=
    (idxs.filter (fun i => dictMem selections ("img_" ++ fmt3 i))).length
  let batch_total : Int := (batch_end : Int) - (batch_start : Int)
  { batch_num := batch_num + 1
    total_batches := total_batches
    batch_complete := batch_complete
    batch_total := batch_total
    batch_percent :=
      if 0 < batch_total then
        pyRound ((batch_complete : ℚ) / (batch_total : ℚ) * 100)
      else 0
    overall_complete := selections.length
    overall_total := total_images
    overall_percent :=
      if 0 < total_images then
        pyRound ((selections.length : ℚ) / (total_images : ℚ) * 100)
      else 0 }

/-- Progress computation of `get_job_info` in `modules/job_manager.py`:
the percentage is rounded to ONE decimal place, and is 0 when the job has
no images. -/
def get_job_info_progress (selections_count image_count : Nat) : ℚ :=
  if 0 < image_count then
    pyRound1 ((selections_count : ℚ) / (image_count : ℚ) * 100)
  else 0

/-! ## Lemmas about the Batcher -/

/-- Every emitted range starts at or after the loop variable, is nonempty,
ends within the total, and its end is the clamped start-plus-size. -/
theorem batchesFrom_mem (start total bs : Nat) (hbs : 0 < bs) (r : Nat × Nat)
    (hr : r ∈ batchesFrom start total bs) :
    start ≤ r.1 ∧ r.1 < r.2 ∧ r.2 ≤ total ∧ r.2 = min (r.1 + bs) total := by
  rw [batchesFrom] at hr
  by_cases h : start < total
  · rw [dif_pos ⟨h, hbs⟩] at hr
    rcases List.mem_cons.mp hr with h1 | h2
    · subst h1
      refine ⟨Nat.le_refl _, ?_, ?_, rfl⟩ <;> simp <;> omega
    · have ih := batchesFrom_mem (start + bs) total bs hbs r h2
      exact ⟨by omega, ih.2.1, ih.2.2.1, ih.2.2.2⟩
  · rw [dif_neg (fun hc => h hc.1)] at hr
    exact absurd hr (List.not_mem_nil r)
termination_by total - start
decreasing_by omega

/-- The emitted ranges are pairwise disjoint and in ascending order: each
range ends at or before the next one starts. -/
theorem batchesFrom_pairwise (start total bs : Nat) (hbs : 0 < bs) :
    (batchesFrom start total bs).Pairwise (fun r s => r.2 ≤ s.1) := by
  rw [batchesFrom]
  by_cases h : start < total
  · rw [dif_pos ⟨h, hbs⟩]
    refine List.pairwise_cons.mpr ⟨?_, batchesFrom_pairwise (start + bs) total bs hbs⟩
    intro s hs
    have := (batchesFrom_mem (start + bs) total bs hbs s hs).1
    simp only
    omega
  · rw [dif_neg (fun hc => h hc.1)]
    exact List.Pairwise.nil
termination_by total - start
decreasing_by omega

/-- The batch list is empty exactly when the loop body never runs. -/
theorem batchesFrom_eq_nil (start total bs : Nat) (h : ¬ start < total) :
    batchesFrom start total bs = [] := by
  rw [batchesFrom, dif_neg (fun hc => h hc.1)]

/-- The batch list is nonempty when the loop body runs at least once. -/
theorem batchesFrom_ne_nil (start total bs : Nat) (hbs : 0 < bs)
    (h : start < total) : batchesFrom start total bs ≠ [] := by
  rw [batchesFrom, dif_pos ⟨h, hbs⟩]
  exact List.cons_ne_nil _ _

/-- Every range except possibly the last has length exactly the batch
size. -/
theorem batchesFrom_dropLast (start total bs : Nat) (hbs : 0 < bs) :
    ∀ r ∈ (batchesFrom start total bs).dropLast, r.2 - r.1 = bs := by
  rw [batchesFrom]
  by_cases h : start < total
  · rw [dif_pos ⟨h, hbs⟩]
    by_cases h2 : start + bs < total
    · obtain ⟨t, ts, ht⟩ :=
        List.exists_cons_of_ne_nil (batchesFrom_ne_nil (start + bs) total bs hbs h2)
      rw [ht, List.dropLast_cons₂]
      intro r hr
      rcases List.mem_cons.mp hr with h1 | h3
      · subst h1; simp; omega
      · have := batchesFrom_dropLast (start + bs) total bs hbs
        rw [ht] at this
        exact this r h3
    · rw [batchesFrom_eq_nil (start + bs) total bs h2]
      intro r hr
      simp at hr
  · rw [dif_neg (fun hc => h hc.1)]
    intro r hr
    simp at hr
termination_by total - start
decreasing_by omega

/-- Every index between the loop variable and the total is covered by some
emitted range. -/
theorem batchesFrom_covers (start total bs : Nat) (hbs : 0 < bs) (k : Nat)
    (h1 : start ≤ k) (h2 : k < total) :
    ∃ r ∈ batchesFrom start total bs, r.1 ≤ k ∧ k < r.2 := by
  have h : start < total := Nat.lt_of_le_of_lt h1 h2
  rw [batchesFrom, dif_pos ⟨h, hbs⟩]
  by_cases hk : k < min (start + bs) total
  · exact ⟨(start, min (start + bs) total), List.mem_cons_self _ _, h1, hk⟩
  · have h3 : start + bs ≤ k := by omega
    obtain ⟨r, hr, hle, hlt⟩ := batchesFrom_covers (start + bs) total bs hbs k h3 h2
    exact ⟨r, List.mem_cons_of_mem _ hr, hle, hlt⟩
termination_by total - start
decreasing_by omega

/-- C2: for every `totalImages ≥ 0` and `batchSize ≥ 1`, `create_batches`
returns half-open ranges whose union is exactly `[0, totalImages)`,
pairwise disjoint and in ascending order, each of length `batchSize`
except possibly the last (which is shorter but nonempty), and the empty
list when `totalImages = 0`. -/
theorem create_batches_spec (total bs : Nat) (hbs : 1 ≤ bs) :
    (∀ k, (∃ r ∈ create_batches total bs, r.1 ≤ k ∧ k < r.2) ↔ k < total)
    ∧ (create_batches total bs).Pairwise (fun r s => r.2 ≤ s.1)
    ∧ (∀ r ∈ (create_batches total bs).dropLast, r.2 - r.1 = bs)
    ∧ (∀ r ∈ create_batches total bs, 0 < r.2 - r.1 ∧ r.2 - r.1 ≤ bs)
    ∧ (total = 0 → create_batches total bs = []) := by
  refine ⟨?_, batchesFrom_pairwise 0 total bs hbs, batchesFrom_dropLast 0 total bs hbs,
    ?_, ?_⟩
  · intro k
    constructor
    · rintro ⟨r, hr, hle, hlt⟩
      have := (batchesFrom_mem 0 total bs hbs r hr).2.2.1
      omega
    · intro hk
      exact batchesFrom_covers 0 total bs hbs k (Nat.zero_le k) hk
  · intro r hr
    have := batchesFrom_mem 0 total bs hbs r hr
    omega
  · intro h0
    exact batchesFrom_eq_nil 0 total bs (by omega)

/-- Witness for C2 at `totalImages = 5`, `batchSize = 2`. -/
theorem create_batches_spec_witness :
    (∀ k, (∃ r ∈ create_batches 5 2, r.1 ≤ k ∧ k < r.2) ↔ k < 5)
    ∧ (create_batches 5 2).Pairwise (fun r s => r.2 ≤ s.1)
    ∧ (∀ r ∈ (create_batches 5 2).dropLast, r.2 - r.1 = 2)
    ∧ (∀ r ∈ create_batches 5 2, 0 < r.2 - r.1 ∧ r.2 - r.1 ≤ 2)
    ∧ ((5 : Nat) = 0 → create_batches 5 2 = []) :=
  create_batches_spec 5 2 (by decide)

/-- C3: `get_layout` realizes exactly the grid table of the spec on every
image count from 1 to 9. -/
theorem get_layout_spec :
    get_layout 1 = (1, 1) ∧ get_layout 2 = (2, 1)
    ∧ get_layout 3 = (2, 2) ∧ get_layout 4 = (2, 2)
    ∧ get_layout 5 = (3, 2) ∧ get_layout 6 = (3, 2)
    ∧ get_layout 7 = (3, 3) ∧ get_layout 8 = (3, 3)
    ∧ get_layout 9 = (3, 3) := by
  decide

/-! ## Lemmas about the PDF Assembler -/

/-- The grouping fold ignores every entry whose value is 0. -/
theorem foldl_groupInsert_all_zero (sel : List (String × Int))
    (h : ∀ kv ∈ sel, kv.2 = 0) (acc : List (Int × List String)) :
    sel.foldl (fun d kv => if kv.2 == 0 then d else groupInsert d kv.2 kv.1) acc
      = acc := by
  induction sel generalizing acc with
  | nil => rfl
  | cons kv rest ih =>
    have h0 : kv.2 = 0 := h kv (List.mem_cons_self _ _)
    simp only [List.foldl_cons, h0]
    exact ih (fun x hx => h x (List.mem_cons_of_mem _ hx)) acc

/-- Selections that are empty or all-excluded produce no page groups. -/
theorem group_images_by_page_eq_nil (sel : List (String × Int))
    (h : ∀ kv ∈ sel, kv.2 = 0) : group_images_by_page sel = [] := by
  unfold group_images_by_page
  rw [foldl_groupInsert_all_zero sel h]
  rfl

/-- C5: on a selections mapping that is empty or whose values are all 0,
`build_output_pdf` returns the failure pair with the distinct non-empty
nothing-to-output message, without raising. -/
theorem build_output_pdf_nothing_to_output (sel : List (String × Int))
    (fs : JobFs) (h : ∀ kv ∈ sel, kv.2 = 0) :
    (build_output_pdf sel fs).1 = (false, nothingToOutputMsg)
    ∧ nothingToOutputMsg ≠ "" := by
  unfold build_output_pdf
  rw [group_images_by_page_eq_nil sel h]
  exact ⟨rfl, by decide⟩

/-- Witness for C5 at a one-entry all-excluded mapping. -/
theorem build_output_pdf_nothing_to_output_witness :
    (build_output_pdf [("img_001", 0)] ⟨true, ["i"], ["t"], []⟩).1
      = (false, nothingToOutputMsg)
    ∧ nothingToOutputMsg ≠ "" :=
  build_output_pdf_nothing_to_output [("img_001", 0)] ⟨true, ["i"], ["t"], []⟩
    (by decide)

/-- C10: whenever `build_output_pdf` fails, the pre-existing output PDF
has already been deleted (it no longer exists afterwards), while the
images, thumbnails and selections of the job are untouched. -/
theorem build_output_pdf_deletes_output (sel : List (String × Int))
    (fs : JobFs) (h : (build_output_pdf sel fs).1.1 = false) :
    (build_output_pdf sel fs).2.outputExists = false
    ∧ (build_output_pdf sel fs).2.imageFiles = fs.imageFiles
    ∧ (build_output_pdf sel fs).2.thumbFiles = fs.thumbFiles
    ∧ (build_output_pdf sel fs).2.selectionsFile = fs.selectionsFile := by
  by_cases hp : (group_images_by_page sel).isEmpty
  · have he : build_output_pdf sel fs
        = ((false, nothingToOutputMsg), { fs with outputExists := false }) := by
      unfold build_output_pdf
      rw [if_pos hp]
    rw [he]
    exact ⟨rfl, rfl, rfl, rfl⟩
  · have he : build_output_pdf sel fs
        = ((true, "PDF created with "
              ++ toString (group_images_by_page sel).length ++ " pages"),
           { fs with outputExists := true }) := by
      unfold build_output_pdf
      rw [if_neg hp]
    rw [he] at h
    exact absurd h (by simp)

/-- Witness for C10: a previously generated output PDF is gone after a
failed regeneration. -/
theorem build_output_pdf_deletes_output_witness :
    (build_output_pdf [("img_001", 0)] ⟨true, ["i"], ["t"], [("img_001", 1)]⟩).2.outputExists
      = false
    ∧ (build_output_pdf [("img_001", 0)]
        ⟨true, ["i"], ["t"], [("img_001", 1)]⟩).2.imageFiles = ["i"]
    ∧ (build_output_pdf [("img_001", 0)]
        ⟨true, ["i"], ["t"], [("img_001", 1)]⟩).2.thumbFiles = ["t"]
    ∧ (build_output_pdf [("img_001", 0)]
        ⟨true, ["i"], ["t"], [("img_001", 1)]⟩).2.selectionsFile = [("img_001", 1)] :=
  build_output_pdf_deletes_output [("img_001", 0)]
    ⟨true, ["i"], ["t"], [("img_001", 1)]⟩ (by decide)

/-! ## Image Store and Batcher interplay -/

/-- C6 (code bug): after a completed conversion of a one-page PDF — which
writes the raster and thumbnail as JPEG files — `get_batch_images` on the
batch `[0, 1)` returns EMPTY image and thumbnail lists, because it checks
for PNG file names that the conversion never writes; the claim expects
exactly one entry for index 1. -/
theorem get_batch_images_extension_mismatch :
    (convert_pdf_to_images (fun _ => .ok ()) 1 200).ok = true
    ∧ (convert_pdf_to_images (fun _ => .ok ()) 1 200).count = 1
    ∧ (convert_pdf_to_images (fun _ => .ok ()) 1 200).files
        = ["img_001.jpg", "thumb_001.jpg"]
    ∧ get_batch_images (convert_pdf_to_images (fun _ => .ok ()) 1 200).files 0 1
        = ⟨[], [], [1]⟩ := by
  decide

/-! ## Lemmas about the conversion loop -/

/-- A run of pages that all rasterize cleanly followed by a failing page:
the loop writes exactly the files of the clean prefix, then stops with
the exception of the failing page; the running count equals the length of
the clean prefix. -/
theorem convertPages_fail (raster : Nat → Except String Unit)
    (l1 : List Nat) (h : ∀ p ∈ l1, raster p = .ok ()) (q : Nat) (e : String)
    (hq : raster q = .error e) (l2 : List Nat) :
    convertPages raster (l1 ++ q :: l2)
      = ((l1.map pageFiles).flatten, some e, l1.length) := by
  induction l1 with
  | nil =>
    simp only [List.nil_append, convertPages, hq, List.map_nil, List.flatten_nil,
      List.length_nil]
  | cons p l1 ih =>
    have hp : raster p = .ok () := h p (List.mem_cons_self _ _)
    simp only [List.cons_append, convertPages, hp, List.append_eq,
      ih (fun x hx => h x (List.mem_cons_of_mem _ hx)), List.map_cons,
      List.flatten_cons, List.length_cons]

/-- Decomposition of the processed page list `1, …, kk + 1 + rest` into
the clean prefix `1, …, kk`, the failing page `kk + 1`, and the remaining
pages. -/
theorem range_pages_split (kk rest : Nat) :
    (List.range (kk + 1 + rest)).map (· + 1)
      = ((List.range kk).map (· + 1))
        ++ (kk + 1) :: ((List.range rest).map (· + (kk + 2))) := by
  have h1 : kk + 1 + rest = kk + (1 + rest) := by omega
  rw [h1, List.range_add, List.map_append]
  congr 1
  have h2 : 1 + rest = rest + 1 := by omega
  rw [h2, List.range_succ_eq_map]
  simp only [List.map_cons, List.map_map]
  congr 1
  apply List.map_congr_left
  intro a _
  simp only [Function.comp_apply]
  omega

/-- C7 (amended): when rasterization of page `kk + 1` raises after the
first `kk` pages were written, `convert_pdf_to_images` aborts the
remaining pages (no file of a later page is written), leaves the files of
the first `kk` pages in place, and returns a failure with a non-empty
message and an image count of 0 — NOT the number `kk` of images produced
before the failure. -/
theorem convert_failure_spec (raster : Nat → Except String Unit)
    (kk rest dpi : Nat) (e : String)
    (hok : ∀ p, 1 ≤ p → p ≤ kk → raster p = .ok ())
    (hfail : raster (kk + 1) = .error e) :
    (convert_pdf_to_images raster (kk + 1 + rest) dpi).ok = false
    ∧ (convert_pdf_to_images raster (kk + 1 + rest) dpi).count = 0
    ∧ (convert_pdf_to_images raster (kk + 1 + rest) dpi).message
        = "Error converting PDF: " ++ e
    ∧ (convert_pdf_to_images raster (kk + 1 + rest) dpi).message ≠ ""
    ∧ (convert_pdf_to_images raster (kk + 1 + rest) dpi).files
        = (((List.range kk).map (· + 1)).map pageFiles).flatten
    ∧ (convert_pdf_to_images raster (kk + 1 + rest) dpi).dpiUsed = none := by
  have hfiles : convertPages raster ((List.range (kk + 1 + rest)).map (· + 1))
      = ((((List.range kk).map (· + 1)).map pageFiles).flatten, some e,
         ((List.range kk).map (· + 1)).length) := by
    rw [range_pages_split kk rest]
    refine convertPages_fail raster _ ?_ (kk + 1) e hfail _
    intro p hp
    obtain ⟨a, ha, rfl⟩ := List.mem_map.mp hp
    have := List.mem_range.mp ha
    exact hok (a + 1) (by omega) (by omega)
  have hmsg : ("Error converting PDF: " ++ e) ≠ "" := by
    intro hcontr
    have h2 := congrArg String.data hcontr
    rw [String.data_append] at h2
    have h3 := List.append_eq_nil.mp h2
    exact absurd h3.1 (by decide)
  unfold convert_pdf_to_images
  rw [hfiles]
  exact ⟨rfl, rfl, rfl, hmsg, rfl, rfl⟩

/-- Witness for C7: a two-page document whose second page fails. -/
theorem convert_failure_spec_witness :
    (convert_pdf_to_images (fun p => if p = 2 then .error "boom" else .ok ())
        (1 + 1 + 0) 200).ok = false
    ∧ (convert_pdf_to_images (fun p => if p = 2 then .error "boom" else .ok ())
        (1 + 1 + 0) 200).count = 0
    ∧ (convert_pdf_to_images (fun p => if p = 2 then .error "boom" else .ok ())
        (1 + 1 + 0) 200).message = "Error converting PDF: " ++ "boom"
    ∧ (convert_pdf_to_images (fun p => if p = 2 then .error "boom" else .ok ())
        (1 + 1 + 0) 200).message ≠ ""
    ∧ (convert_pdf_to_images (fun p => if p = 2 then .error "boom" else .ok ())
        (1 + 1 + 0) 200).files
        = (((List.range 1).map (· + 1)).map pageFiles).flatten
    ∧ (convert_pdf_to_images (fun p => if p = 2 then .error "boom" else .ok ())
        (1 + 1 + 0) 200).dpiUsed = none :=
  convert_failure_spec (fun p => if p = 2 then .error "boom" else .ok ()) 1 0 200
    "boom"
    (fun p h1 h2 => by
      have hp : p = 1 := Nat.le_antisymm h2 h1
      subst hp
      rfl)
    rfl

/-- C7 counterexample: with one page already written (two files on disk)
when page 2 fails, the returned image count is 0, not the number 1 of
images produced before the failure. -/
theorem convert_failure_count_counterexample :
    (convert_pdf_to_images (fun p => if p = 2 then .error "boom" else .ok ())
        2 200).ok = false
    ∧ (convert_pdf_to_images (fun p => if p = 2 then .error "boom" else .ok ())
        2 200).files = ["img_001.jpg", "thumb_001.jpg"]
    ∧ (convert_pdf_to_images (fun p => if p = 2 then .error "boom" else .ok ())
        2 200).count = 0
    ∧ (0 : Nat) ≠ 1 := by
  decide

/-! ## Progress statistics -/

/-- C8 (amended): the overall percentage of `get_batch_selection_status`
is the banker-rounded integer percentage (0 when there are no images),
while the progress of `get_job_info` is rounded to ONE decimal place
(0 when there are no images); neither divides by zero, the zero case
being guarded. -/
theorem progress_percent_spec (total bn tb bs : Nat)
    (selections : List (String × Int)) (sc ic : Nat) :
    (get_batch_selection_status total selections bn tb bs).overall_percent
      = (if 0 < total then pyRound ((selections.length : ℚ) / (total : ℚ) * 100)
         else 0)
    ∧ get_job_info_progress sc ic
      = (if 0 < ic then ((pyRound (((sc : ℚ) / (ic : ℚ) * 100) * 10) : ℤ) : ℚ) / 10
         else 0) := by
  constructor
  · rfl
  · unfold get_job_info_progress pyRound1
    rfl

/-- C8 counterexample: with 1 of 3 images selected the batch path reports
33 percent but `get_job_info` reports 33.3 percent, which differs from
the integer rounding the claim prescribes for both paths. -/
theorem progress_rounding_counterexample :
    (get_batch_selection_status 3 [("img_001", 1)] 0 1 4).overall_percent = 33
    ∧ get_job_info_progress 1 3 = 333 / 10
    ∧ (333 / 10 : ℚ) ≠ ((33 : ℤ) : ℚ) := by
  have h1 : ((List.length [("img_001", (1 : Int))] : ℚ) / (3 : ℚ) * 100)
      = 100 / 3 := by norm_num
  have hf : ⌊(100 / 3 : ℚ)⌋ = 33 := by norm_num
  have hf2 : ⌊(100 / 3 * 10 : ℚ)⌋ = 333 := by norm_num
  refine ⟨?_, ?_, by norm_num⟩
  · show (if 0 < 3 then
        pyRound ((List.length [("img_001", (1 : Int))] : ℚ) / ((3 : Nat) : ℚ) * 100)
      else 0) = 33
    rw [if_pos (by norm_num)]
    unfold pyRound
    have h1' : ((List.length [("img_001", (1 : Int))] : ℚ) / ((3 : Nat) : ℚ) * 100)
        = 100 / 3 := by norm_num
    rw [h1']
    rw [hf]
    rw [if_pos (show (100 / 3 : ℚ) - (33 : ℤ) < 1 / 2 by push_cast; norm_num)]
  · unfold get_job_info_progress pyRound1 pyRound
    rw [if_pos (by norm_num)]
    have h2 : (((1 : Nat) : ℚ) / ((3 : Nat) : ℚ) * 100) * 10 = 100 / 3 * 10 := by
      push_cast; ring
    rw [h2, hf2]
    rw [if_pos (show (100 / 3 * 10 : ℚ) - (333 : ℤ) < 1 / 2 by push_cast; norm_num)]
    norm_num

/-! ## Lemmas about the Selection Ledger merge -/

/-- Bool-level membership bridging lemma: `contains` agrees with `∈`. -/
theorem contains_iff_mem (l : List String) (a : String) :
    l.contains a = true ↔ a ∈ l :=
  List.elem_iff

/-- Stable insertion is a permutation. -/
theorem sInsert_perm (le : α → α → Bool) (x : α) (l : List α) :
    List.Perm (sInsert le x l) (x :: l) := by
  induction l with
  | nil => exact List.Perm.refl _
  | cons y ys ih =>
    unfold sInsert
    by_cases h : le x y
    · rw [if_pos h]
    · rw [if_neg h]
      exact (ih.cons y).trans (List.Perm.swap x y ys)

/-- Stable sorting is a permutation. -/
theorem sortStableBy_perm (le : α → α → Bool) (l : List α) :
    List.Perm (sortStableBy le l) l := by
  induction l with
  | nil => exact List.Perm.refl _
  | cons x xs ih => exact (sInsert_perm le x (sortStableBy le xs)).trans (ih.cons x)

/-- The key sort of the merge is a permutation of its input. -/
theorem sort_img_keys_perm (l : List String) : List.Perm (sort_img_keys l) l := by
  unfold sort_img_keys
  split
  · exact sortStableBy_perm _ l
  · exact sortStableBy_perm _ l

/-- Membership in a dict equals membership among its keys. -/
theorem dictMem_eq_contains {β : Type} (d : List (String × β)) (k : String) :
    d.any (·.1 == k) = (d.map (·.1)).contains k := by
  induction d with
  | nil => rfl
  | cons kv d ih =>
    simp only [List.any_cons, List.map_cons, List.contains_cons, ih]
    by_cases hk : kv.1 = k
    · simp [hk]
    · simp [beq_false_of_ne hk, beq_false_of_ne (Ne.symm hk)]

/-- Dict assignment appends when the key is absent. -/
theorem dictSet_append (d : List (String × Int)) (k : String) (v : Int)
    (h : ¬ k ∈ d.map (·.1)) : dictSet d k v = d ++ [(k, v)] := by
  unfold dictSet
  rw [if_neg]
  intro hc
  rw [dictMem_eq_contains] at hc
  exact h ((contains_iff_mem _ _).mp hc)

/-- Folding dict assignments of fresh, pairwise distinct keys over the
entries of a list appends the corresponding pairs in order. -/
theorem foldl_dictSet_entries (f : String × Int → Int) :
    ∀ (l acc : List (String × Int)),
      (∀ kv ∈ l, ¬ kv.1 ∈ acc.map (·.1)) → (l.map (·.1)).Nodup →
      l.foldl (fun m kv => dictSet m kv.1 (f kv)) acc
        = acc ++ l.map (fun kv => (kv.1, f kv)) := by
  intro l
  induction l with
  | nil => intro acc _ _; simp
  | cons kv l ih =>
    intro acc hd hnd
    have h1 : dictSet acc kv.1 (f kv) = acc ++ [(kv.1, f kv)] :=
      dictSet_append acc kv.1 (f kv) (hd kv (List.mem_cons_self _ _))
    have hhead : ¬ kv.1 ∈ l.map (·.1) := (List.nodup_cons.mp (by simpa using hnd)).1
    have h2 := ih (acc ++ [(kv.1, f kv)])
      (by
        intro kv2 hkv2
        rw [List.map_append, List.mem_append]
        rintro (hc | hc)
        · exact hd kv2 (List.mem_cons_of_mem _ hkv2) hc
        · simp only [List.map_cons, List.map_nil, List.mem_singleton] at hc
          exact hhead (hc ▸ List.mem_map_of_mem (·.1) hkv2))
      (List.nodup_cons.mp (by simpa using hnd)).2
    simp only [List.foldl_cons, h1, h2, List.map_cons, List.append_assoc,
      List.singleton_append]

/-- Folding dict assignments of fresh, pairwise distinct keys over a key
list appends the corresponding pairs in order. -/
theorem foldl_dictSet_keys (g : String → Int) :
    ∀ (ks : List String) (acc : List (String × Int)),
      (∀ k ∈ ks, ¬ k ∈ acc.map (·.1)) → ks.Nodup →
      ks.foldl (fun m k => dictSet m k (g k)) acc
        = acc ++ ks.map (fun k => (k, g k)) := by
  intro ks
  induction ks with
  | nil => intro acc _ _; simp
  | cons k ks ih =>
    intro acc hd hnd
    have h1 : dictSet acc k (g k) = acc ++ [(k, g k)] :=
      dictSet_append acc k (g k) (hd k (List.mem_cons_self _ _))
    have h2 := ih (acc ++ [(k, g k)])
      (by
        intro k2 hk2
        rw [List.map_append, List.mem_append]
        rintro (hc | hc)
        · exact hd k2 (List.mem_cons_of_mem _ hk2) hc
        · simp only [List.map_cons, List.map_nil, List.mem_singleton] at hc
          exact (List.nodup_cons.mp hnd).1 (hc ▸ hk2))
      (List.nodup_cons.mp hnd).2
    simp only [List.foldl_cons, h1, h2, List.map_cons, List.append_assoc,
      List.singleton_append]

/-- A Bool filter conjunct of the form not-contains certifies
non-membership. -/
theorem not_mem_of_not_contains {l : List String} {k : String}
    (h : l.contains k = false) : ¬ k ∈ l := by
  intro hm
  rw [(contains_iff_mem l k).mpr hm] at h
  cases h

/-- The imperative merge of `get_current_selections` coincides with the
declarative two-group merge `mergeAmended` whenever the persisted mapping
and the editor widget lists have pairwise distinct keys (which Python
dicts guarantee). -/
theorem gcs_eq_mergeAmended (persisted : List (String × Int)) (es : EditorState)
    (hp : (persisted.map (·.1)).Nodup)
    (hpg : (es.page.map (·.1)).Nodup)
    (hex : (es.excl.map (·.1)).Nodup) :
    get_current_selections persisted es = mergeAmended persisted es := by
  have hb1 : (fun (m : List (String × Int)) (kv : String × Int) =>
      if es.getExcl kv.1 then dictSet m kv.1 0
      else dictSet m kv.1 ((es.getPage? kv.1).getD kv.2))
      = fun m kv => dictSet m kv.1
          (if es.getExcl kv.1 then 0 else (es.getPage? kv.1).getD kv.2) := by
    funext m kv
    by_cases h : es.getExcl kv.1
    · rw [if_pos h, if_pos h]
    · rw [if_neg h, if_neg h]
  have hb4 : (fun (m : List (String × Int)) (k : String) =>
      if es.getExcl k then dictSet m k 0
      else dictSet m k ((es.getPage? k).getD 1))
      = fun m k => dictSet m k
          (if es.getExcl k then 0 else (es.getPage? k).getD 1) := by
    funext m k
    by_cases h : es.getExcl k
    · rw [if_pos h, if_pos h]
    · rw [if_neg h, if_neg h]
  unfold get_current_selections mergeAmended
  simp only [hb1, hb4]
  rw [foldl_dictSet_entries
    (fun kv => if es.getExcl kv.1 then 0 else (es.getPage? kv.1).getD kv.2)
    persisted [] (by simp) hp, List.nil_append]
  -- the merged dict after step 1
  set base := persisted.map (fun kv =>
    (kv.1, if es.getExcl kv.1 then (0 : Int) else (es.getPage? kv.1).getD kv.2))
    with hbase
  have hkeys : base.map (·.1) = persisted.map (·.1) := by
    rw [hbase, List.map_map]
    exact List.map_congr_left (fun a _ => rfl)
  have hmemBase : ∀ k, dictMem base k = (persisted.map (·.1)).contains k := by
    intro k
    show base.any (·.1 == k) = _
    rw [dictMem_eq_contains, hkeys]
  have hmemPage : ∀ k, dictMem es.page k = (es.page.map (·.1)).contains k := by
    intro k
    show es.page.any (·.1 == k) = _
    exact dictMem_eq_contains es.page k
  -- the two new-key groups coincide with their declarative forms
  have hfilterA : (es.page.map (·.1)).filter (fun k => !dictMem base k)
      = (es.page.map (·.1)).filter (fun k => !(persisted.map (·.1)).contains k) := by
    apply List.filter_congr
    intro k _
    rw [hmemBase k]
  have hfilterB : ((es.excl.filter (·.2)).map (·.1)).filter
        (fun k => !dictMem base k && !dictMem es.page k)
      = ((es.excl.filter (·.2)).map (·.1)).filter
        (fun k => !(persisted.map (·.1)).contains k
          && !(es.page.map (·.1)).contains k) := by
    apply List.filter_congr
    intro k _
    rw [hmemBase k, hmemPage k]
  rw [hfilterA, hfilterB]
  -- step 4: append the sorted page-keyed group
  have hAmem : ∀ k ∈ sort_img_keys ((es.page.map (·.1)).filter
      (fun k => !(persisted.map (·.1)).contains k)), ¬ k ∈ base.map (·.1) := by
    intro k hk
    rw [hkeys]
    have hk2 := (sort_img_keys_perm _).mem_iff.mp hk
    have := (List.mem_filter.mp hk2).2
    rw [Bool.not_eq_eq_eq_not, Bool.not_true] at this
    exact not_mem_of_not_contains this
  have hAnodup : (sort_img_keys ((es.page.map (·.1)).filter
      (fun k => !(persisted.map (·.1)).contains k))).Nodup :=
    (sort_img_keys_perm _).nodup_iff.mpr (List.Nodup.filter _ hpg)
  rw [foldl_dictSet_keys
    (fun k => if es.getExcl k then 0 else (es.getPage? k).getD 1)
    _ base hAmem hAnodup]
  -- step 5: append the sorted exclude-only group
  have hBmem : ∀ k ∈ sort_img_keys (((es.excl.filter (·.2)).map (·.1)).filter
      (fun k => !(persisted.map (·.1)).contains k
        && !(es.page.map (·.1)).contains k)),
      ¬ k ∈ (base ++ (sort_img_keys ((es.page.map (·.1)).filter
        (fun k => !(persisted.map (·.1)).contains k))).map
          (fun k => (k, if es.getExcl k then 0 else (es.getPage? k).getD 1))).map
        (·.1) := by
    intro k hk
    have hk2 := (sort_img_keys_perm _).mem_iff.mp hk
    have hprops := (List.mem_filter.mp hk2).2
    rw [Bool.and_eq_true, Bool.not_eq_eq_eq_not, Bool.not_eq_eq_eq_not,
      Bool.not_true] at hprops
    rw [List.map_append, List.mem_append, hkeys]
    rintro (hc | hc)
    · exact not_mem_of_not_contains hprops.1 hc
    · rw [List.map_map] at hc
      have hc2 : k ∈ (sort_img_keys ((es.page.map (·.1)).filter
          (fun k => !(persisted.map (·.1)).contains k))).map
            ((·.1) ∘ fun k => (k, if es.getExcl k then (0 : Int)
              else (es.getPage? k).getD 1)) := hc
      rw [show ((·.1) ∘ fun k => (k, if es.getExcl k then (0 : Int)
          else (es.getPage? k).getD 1)) = id from funext (fun _ => rfl),
        List.map_id] at hc2
      have hc3 := (sort_img_keys_perm _).mem_iff.mp hc2
      have hc4 := List.mem_of_mem_filter hc3
      exact not_mem_of_not_contains hprops.2 hc4
  have hBnodup : (sort_img_keys (((es.excl.filter (·.2)).map (·.1)).filter
      (fun k => !(persisted.map (·.1)).contains k
        && !(es.page.map (·.1)).contains k))).Nodup := by
    apply (sort_img_keys_perm _).nodup_iff.mpr
    apply List.Nodup.filter
    exact List.Nodup.sublist (List.Sublist.map _ (List.filter_sublist es.excl)) hex
  rw [foldl_dictSet_keys (fun _ => 0) _ _ hBmem hBnodup]

/-- C1 counterexample: with an empty persisted mapping, a page widget for
image 5 and a ticked exclude checkbox (only) for image 2, the code
appends the page-keyed image 5 BEFORE the exclude-only image 2, while
the claim appends all new keys in one group sorted ascending by index
(2 before 5); so the merge differs from the claimed merge. -/
theorem merge_new_keys_order_counterexample :
    get_current_selections [] ⟨[("img_002", true)], [("img_005", 2)]⟩
      = [("img_005", 2), ("img_002", 0)]
    ∧ mergeClaimed [] ⟨[("img_002", true)], [("img_005", 2)]⟩
      = [("img_002", 0), ("img_005", 2)]
    ∧ get_current_selections [] ⟨[("img_002", true)], [("img_005", 2)]⟩
      ≠ mergeClaimed [] ⟨[("img_002", true)], [("img_005", 2)]⟩ := by
  refine ⟨by decide, by decide, by decide⟩

/-- C1 (amended): whenever the persisted mapping and the editor widget
lists have pairwise distinct keys, the merge keeps every persisted key in
order with the live editor value overriding (the exclude flag forcing 0,
else the numeric page field, else the persisted value), and appends the
keys present only in the editor state in TWO groups — first the
page-keyed ones (value 0 if excluded, else the entered number, default
1), then the exclude-only ones (value 0) — each group sorted ascending by
numeric image index with lexical fallback. -/
theorem merge_amended_spec (persisted : List (String × Int)) (es : EditorState)
    (hp : (persisted.map (·.1)).Nodup)
    (hpg : (es.page.map (·.1)).Nodup)
    (hex : (es.excl.map (·.1)).Nodup) :
    get_current_selections persisted es = mergeAmended persisted es :=
  gcs_eq_mergeAmended persisted es hp hpg hex

/-- Witness for C1 at a persisted entry, a live page widget for a new
image and a live exclude checkbox for another new image. -/
theorem merge_amended_spec_witness :
    get_current_selections [("img_001", 3)]
        ⟨[("img_004", true)], [("img_002", 7)]⟩
      = mergeAmended [("img_001", 3)] ⟨[("img_004", true)], [("img_002", 7)]⟩ :=
  merge_amended_spec [("img_001", 3)] ⟨[("img_004", true)], [("img_002", 7)]⟩
    (by decide) (by decide) (by decide)

/-- With pairwise distinct keys, the first match of a key search in an
association list is the unique entry holding that key. -/
theorem find?_key_eq {β : Type} (l : List (String × β))
    (hl : (l.map Prod.fst).Nodup) (kv : String × β) (h : kv ∈ l) :
    l.find? (·.1 == kv.1) = some kv := by
  induction l with
  | nil => cases h
  | cons a l ih =>
    rcases List.mem_cons.mp h with rfl | hmem
    · exact List.find?_cons_of_pos _ (by simp)
    · have hne : a.1 ≠ kv.1 := by
        intro he
        have h2 : a.1 ∈ l.map Prod.fst := he ▸ List.mem_map_of_mem Prod.fst hmem
        exact (List.nodup_cons.mp (by simpa using hl)).1 h2
      simp only [List.find?, beq_false_of_ne hne]
      exact ih (List.nodup_cons.mp (by simpa using hl)).2 hmem

/-- On the self-describing editor state, the exclude checkbox of an entry
reads exactly whether its value is 0. -/
theorem editorStateOf_getExcl (m : List (String × Int))
    (hm : (m.map (·.1)).Nodup) (kv : String × Int) (h : kv ∈ m) :
    (editorStateOf m).getExcl kv.1 = (kv.2 == 0) := by
  unfold editorStateOf EditorState.getExcl
  rw [find?_key_eq (m.map (fun kv => (kv.1, kv.2 == 0)))
    (by
      rw [List.map_map]
      exact (List.map_congr_left (fun a _ => rfl) : _ = m.map (·.1)) ▸ hm)
    (kv.1, kv.2 == 0) (List.mem_map_of_mem _ h)]
  rfl

/-- On the self-describing editor state, the page widget of an entry with
nonzero value reads exactly that value. -/
theorem editorStateOf_getPage (m : List (String × Int))
    (hm : (m.map (·.1)).Nodup) (kv : String × Int) (h : kv ∈ m)
    (hv : ¬ kv.2 = 0) : (editorStateOf m).getPage? kv.1 = some kv.2 := by
  unfold editorStateOf EditorState.getPage?
  rw [find?_key_eq (m.filter (fun kv => !(kv.2 == 0)))
    (List.Nodup.sublist (List.Sublist.map _ (List.filter_sublist m)) hm)
    kv (List.mem_filter.mpr ⟨h, by simpa using hv⟩)]
  rfl

/-- C9: merging a persisted mapping (with pairwise distinct keys, as a
dict guarantees) with an editor state whose live values equal that
mapping exactly yields the same mapping: same keys, same order, same
values. -/
theorem merge_idempotent (m : List (String × Int))
    (hm : (m.map (·.1)).Nodup) :
    get_current_selections m (editorStateOf m) = m := by
  have hpg : ((editorStateOf m).page.map (·.1)).Nodup :=
    List.Nodup.sublist (List.Sublist.map _ (List.filter_sublist m)) hm
  have hex : ((editorStateOf m).excl.map (·.1)).Nodup := by
    show ((m.map (fun kv => (kv.1, kv.2 == 0))).map (·.1)).Nodup
    rw [List.map_map]
    exact (List.map_congr_left (fun a _ => rfl) : _ = m.map (·.1)) ▸ hm
  rw [gcs_eq_mergeAmended m (editorStateOf m) hm hpg hex]
  show _ ++ _ ++ _ = m
  have hbase : m.map (fun kv => (kv.1,
      if (editorStateOf m).getExcl kv.1 then 0
      else ((editorStateOf m).getPage? kv.1).getD kv.2)) = m := by
    have : ∀ kv ∈ m, (kv.1,
        if (editorStateOf m).getExcl kv.1 then (0 : Int)
        else ((editorStateOf m).getPage? kv.1).getD kv.2) = kv := by
      intro kv hkv
      rw [editorStateOf_getExcl m hm kv hkv]
      by_cases hv : kv.2 = 0
      · rw [if_pos (by simpa using hv)]
        rw [← hv]
      · rw [if_neg (by simpa using hv), editorStateOf_getPage m hm kv hkv hv]
        rfl
    rw [List.map_congr_left this]
    exact List.map_id' m
  have hpageSub : ∀ k ∈ (editorStateOf m).page.map (·.1), k ∈ m.map (·.1) := by
    intro k hk
    obtain ⟨kv, hkv, rfl⟩ := List.mem_map.mp hk
    exact List.mem_map_of_mem _ (List.mem_of_mem_filter hkv)
  have hexclSub : ∀ k ∈ ((editorStateOf m).excl.filter (·.2)).map (·.1),
      k ∈ m.map (·.1) := by
    intro k hk
    obtain ⟨kv, hkv, rfl⟩ := List.mem_map.mp hk
    have h1 := List.mem_of_mem_filter hkv
    obtain ⟨kv2, hkv2, he⟩ := List.mem_map.mp h1
    rw [← he]
    exact List.mem_map_of_mem _ hkv2
  have hA : ((editorStateOf m).page.map (·.1)).filter
      (fun k => !(m.map (·.1)).contains k) = [] := by
    rw [List.filter_eq_nil_iff]
    intro k hk
    rw [(contains_iff_mem _ _).mpr (hpageSub k hk)]
    simp
  have hB : (((editorStateOf m).excl.filter (·.2)).map (·.1)).filter
      (fun k => !(m.map (·.1)).contains k
        && !((editorStateOf m).page.map (·.1)).contains k) = [] := by
    rw [List.filter_eq_nil_iff]
    intro k hk
    rw [(contains_iff_mem _ _).mpr (hexclSub k hk)]
    simp
  rw [hbase, hA, hB]
  simp [sort_img_keys, sortStableBy]

/-- Witness for C9 at a two-entry mapping with one excluded image. -/
theorem merge_idempotent_witness :
    get_current_selections [("img_001", 2), ("img_002", 0)]
        (editorStateOf [("img_001", 2), ("img_002", 0)])
      = [("img_001", 2), ("img_002", 0)] :=
  merge_idempotent [("img_001", 2), ("img_002", 0)] (by decide)

/-! ## Lemmas about the page layout arithmetic -/

/-- One millimetre is a positive length. -/
theorem mmQ_pos : (0 : ℚ) < mmQ := by norm_num [mmQ]

/-- Geometry of a single cell placement: the drawn rectangle is nonempty,
preserves the image aspect ratio, lies inside the cell, is centered in it
on both axes, and is width-constrained exactly when the image aspect
ratio exceeds the cell aspect ratio, height-constrained otherwise. -/
theorem placeInCell_spec (imgW imgH cellW cellH x y : ℚ)
    (hw : 0 < imgW) (hh : 0 < imgH)
    (hcw : 2 * mmQ < cellW) (hch : 2 * mmQ < cellH) :
    0 < (placeInCell imgW imgH cellW cellH x y).w
    ∧ 0 < (placeInCell imgW imgH cellW cellH x y).h
    ∧ (placeInCell imgW imgH cellW cellH x y).w * imgH
        = (placeInCell imgW imgH cellW cellH x y).h * imgW
    ∧ x ≤ (placeInCell imgW imgH cellW cellH x y).x
    ∧ (placeInCell imgW imgH cellW cellH x y).x
        + (placeInCell imgW imgH cellW cellH x y).w ≤ x + cellW
    ∧ y ≤ (placeInCell imgW imgH cellW cellH x y).y
    ∧ (placeInCell imgW imgH cellW cellH x y).y
        + (placeInCell imgW imgH cellW cellH x y).h ≤ y + cellH
    ∧ (placeInCell imgW imgH cellW cellH x y).x - x
        = (x + cellW) - ((placeInCell imgW imgH cellW cellH x y).x
            + (placeInCell imgW imgH cellW cellH x y).w)
    ∧ (placeInCell imgW imgH cellW cellH x y).y - y
        = (y + cellH) - ((placeInCell imgW imgH cellW cellH x y).y
            + (placeInCell imgW imgH cellW cellH x y).h)
    ∧ (imgW / imgH > cellW / cellH →
        (placeInCell imgW imgH cellW cellH x y).w = cellW - 2 * mmQ)
    ∧ (¬ imgW / imgH > cellW / cellH →
        (placeInCell imgW imgH cellW cellH x y).h = cellH - 2 * mmQ) := by
  have hm : (0 : ℚ) < mmQ := mmQ_pos
  have hcw0 : 0 < cellW := by linarith
  have hch0 : 0 < cellH := by linarith
  have ha : 0 < imgW / imgH := div_pos hw hh
  unfold placeInCell
  by_cases hgt : imgW / imgH > cellW / cellH
  · rw [if_pos hgt]
    dsimp only
    have hdwpos : 0 < cellW - 2 * mmQ := by linarith
    have hdhpos : 0 < (cellW - 2 * mmQ) / (imgW / imgH) := div_pos hdwpos ha
    have hkey : cellW < imgW / imgH * cellH := (div_lt_iff hch0).mp hgt
    have hdhle : (cellW - 2 * mmQ) / (imgW / imgH) ≤ cellH := by
      have h1 : (cellW - 2 * mmQ) / (imgW / imgH) ≤ cellW / (imgW / imgH) :=
        (div_le_div_right ha).mpr (by linarith)
      have h2 : cellW / (imgW / imgH) < imgW / imgH * cellH / (imgW / imgH) :=
        (div_lt_div_right ha).mpr hkey
      have h3 : imgW / imgH * cellH / (imgW / imgH) = cellH :=
        mul_div_cancel_left₀ cellH (ne_of_gt ha)
      linarith
    refine ⟨hdwpos, hdhpos, ?_, by linarith, by linarith, by linarith,
      by linarith, by ring, by ring, fun _ => rfl, fun hng => absurd hgt hng⟩
    field_simp
  · rw [if_neg hgt]
    dsimp only
    have hle : imgW / imgH ≤ cellW / cellH := not_lt.mp hgt
    have hdhpos : 0 < cellH - 2 * mmQ := by linarith
    have hdwpos : 0 < (cellH - 2 * mmQ) * (imgW / imgH) := mul_pos hdhpos ha
    have hdwle : (cellH - 2 * mmQ) * (imgW / imgH) ≤ cellW := by
      have h1 : (cellH - 2 * mmQ) * (imgW / imgH)
          ≤ (cellH - 2 * mmQ) * (cellW / cellH) :=
        mul_le_mul_of_nonneg_left hle (le_of_lt hdhpos)
      have h2 : (cellH - 2 * mmQ) * (cellW / cellH) ≤ cellH * (cellW / cellH) :=
        mul_le_mul_of_nonneg_right (by linarith)
          (le_of_lt (div_pos hcw0 hch0))
      have h3 : cellH * (cellW / cellH) = cellW := by
        rw [mul_comm]
        exact div_mul_cancel₀ cellW (ne_of_gt hch0)
      linarith
    refine ⟨hdwpos, hdhpos, ?_, by linarith, by linarith, by linarith,
      by linarith, by ring, by ring, fun hng => absurd hng hgt, fun _ => rfl⟩
    field_simp

/-- C4: on a page group of `n` images (`1 ≤ n ≤ 9` in use, generally any
`idx < n`), image `idx` is placed in grid cell
`(idx / cols, idx % cols)`, filling row-major from the top-left, the
vertical cell position being `pageHeight - margin - (row + 1) * cellHeight`
from the bottom-left origin; in the 2-image case the rotated (swapped)
dimensions are used; and the drawn rectangle is nonempty, preserves the
(possibly rotated) aspect ratio, lies inside its cell, is centered in it
on both axes, and is width-constrained exactly when the image aspect
ratio exceeds the cell aspect ratio, height-constrained otherwise. -/
theorem create_page_with_images_spec
    (dims : List (ℚ × ℚ)) (rows cols : Nat) (pageW pageH : ℚ) (idx : Nat)
    (hidx : idx < dims.length)
    (hdims : ∀ d ∈ dims, 0 < d.1 ∧ 0 < d.2)
    (hcw : 2 * mmQ < (pageW - 2 * (10 * mmQ)) / (cols : ℚ))
    (hch : 2 * mmQ < (pageH - 2 * (10 * mmQ)) / (rows : ℚ)) :
    let cw := (pageW - 2 * (10 * mmQ)) / (cols : ℚ)
    let ch := (pageH - 2 * (10 * mmQ)) / (rows : ℚ)
    let cellX := 10 * mmQ + ((idx % cols : Nat) : ℚ) * cw
    let cellY := pageH - 10 * mmQ - (((idx / cols : Nat) : ℚ) + 1) * ch
    let eff := if dims.length = 2
      then ((dims.getD idx (1, 1)).2, (dims.getD idx (1, 1)).1)
      else dims.getD idx (1, 1)
    let r := (create_page_with_images dims (rows, cols) pageW pageH).getD idx
      ⟨0, 0, 0, 0⟩
    (create_page_with_images dims (rows, cols) pageW pageH).length = dims.length
    ∧ 0 < r.w ∧ 0 < r.h
    ∧ r.w * eff.2 = r.h * eff.1
    ∧ cellX ≤ r.x ∧ r.x + r.w ≤ cellX + cw
    ∧ cellY ≤ r.y ∧ r.y + r.h ≤ cellY + ch
    ∧ r.x - cellX = (cellX + cw) - (r.x + r.w)
    ∧ r.y - cellY = (cellY + ch) - (r.y + r.h)
    ∧ (eff.1 / eff.2 > cw / ch → r.w = cw - 2 * mmQ)
    ∧ (¬ eff.1 / eff.2 > cw / ch → r.h = ch - 2 * mmQ) := by
  intro cw ch cellX cellY eff r
  have hd0 : dims.getD idx (1, 1) ∈ dims := by
    rw [List.getD_eq_getElem?_getD, List.getElem?_eq_getElem hidx]
    exact List.getElem_mem hidx
  have heff : 0 < eff.1 ∧ 0 < eff.2 := by
    by_cases h2 : dims.length = 2
    · have he : eff = ((dims.getD idx (1, 1)).2, (dims.getD idx (1, 1)).1) :=
        if_pos h2
      rw [he]
      exact ⟨(hdims _ hd0).2, (hdims _ hd0).1⟩
    · have he : eff = dims.getD idx (1, 1) := if_neg h2
      rw [he]
      exact hdims _ hd0
  have hr : r = placeInCell eff.1 eff.2 cw ch cellX cellY := by
    show (create_page_with_images dims (rows, cols) pageW pageH).getD idx
      ⟨0, 0, 0, 0⟩ = _
    unfold create_page_with_images
    rw [List.getD_eq_getElem?_getD, List.getElem?_map _,
      List.getElem?_range hidx]
    rfl
  have hlen : (create_page_with_images dims (rows, cols) pageW pageH).length
      = dims.length := by
    unfold create_page_with_images
    rw [List.length_map, List.length_range]
  have hp := placeInCell_spec eff.1 eff.2 cw ch cellX cellY heff.1 heff.2 hcw hch
  rw [hr]
  exact ⟨hlen, hp.1, hp.2.1, hp.2.2.1, hp.2.2.2.1, hp.2.2.2.2.1, hp.2.2.2.2.2.1,
    hp.2.2.2.2.2.2.1, hp.2.2.2.2.2.2.2.1, hp.2.2.2.2.2.2.2.2.1,
    hp.2.2.2.2.2.2.2.2.2.1, hp.2.2.2.2.2.2.2.2.2.2⟩

/-- Witness for C4: the first of a 2-image group (rotation case) on an A4
page with a `(2, 1)` grid. -/
theorem create_page_with_images_spec_witness :
    let cw := (a4Width - 2 * (10 * mmQ)) / ((1 : Nat) : ℚ)
    let ch := (a4Height - 2 * (10 * mmQ)) / ((2 : Nat) : ℚ)
    let cellX := 10 * mmQ + ((0 % 1 : Nat) : ℚ) * cw
    let cellY := a4Height - 10 * mmQ - (((0 / 1 : Nat) : ℚ) + 1) * ch
    let eff := if List.length [((3 : ℚ), (4 : ℚ)), (3, 4)] = 2
      then (([((3 : ℚ), (4 : ℚ)), (3, 4)].getD 0 (1, 1)).2,
            ([((3 : ℚ), (4 : ℚ)), (3, 4)].getD 0 (1, 1)).1)
      else [((3 : ℚ), (4 : ℚ)), (3, 4)].getD 0 (1, 1)
    let r := (create_page_with_images [((3 : ℚ), (4 : ℚ)), (3, 4)] (2, 1)
      a4Width a4Height).getD 0 ⟨0, 0, 0, 0⟩
    (create_page_with_images [((3 : ℚ), (4 : ℚ)), (3, 4)] (2, 1)
        a4Width a4Height).length = List.length [((3 : ℚ), (4 : ℚ)), (3, 4)]
    ∧ 0 < r.w ∧ 0 < r.h
    ∧ r.w * eff.2 = r.h * eff.1
    ∧ cellX ≤ r.x ∧ r.x + r.w ≤ cellX + cw
    ∧ cellY ≤ r.y ∧ r.y + r.h ≤ cellY + ch
    ∧ r.x - cellX = (cellX + cw) - (r.x + r.w)
    ∧ r.y - cellY = (cellY + ch) - (r.y + r.h)
    ∧ (eff.1 / eff.2 > cw / ch → r.w = cw - 2 * mmQ)
    ∧ (¬ eff.1 / eff.2 > cw / ch → r.h = ch - 2 * mmQ) :=
  create_page_with_images_spec [((3 : ℚ), (4 : ℚ)), (3, 4)] 2 1
    a4Width a4Height 0 (by norm_num)
    (by
      intro d hd
      rcases List.mem_cons.mp hd with rfl | hd2
      · exact ⟨by norm_num, by norm_num⟩
      · rcases List.mem_cons.mp hd2 with rfl | hd3
        · exact ⟨by norm_num, by norm_num⟩
        · cases hd3)
    (by norm_num [a4Width, mmQ])
    (by norm_num [a4Height, mmQ])

end TeacherPrinter
